import Mathlib

/-!
Verification of the resilient job-acquisition and skill-matching engine of
the careerlens-ai backend.

The Lean definitions below are a shallow embedding of the Python source:
* `backend/app/services/circuit_breaker.py` (per-provider breaker state machine),
* `backend/app/services/http_client.py` (`ResilientHTTPClient.get`),
* `backend/app/services/job_scoring_svc.py` (`extract_jd_skills`, `score_job_match`),
* `backend/app/routes/jobSearch.py` (the `/jobs/search` orchestrator),
* `backend/app/services/free_job_svc.py` (`FreeJobService.search_jobs` dedup stage).

Modelling conventions:
* Python `datetime.now()` timestamps are integers (seconds); every operation that
  reads the clock takes the current time as an explicit argument.
* Python dicts used as ordered skill→weight maps are association lists
  (`List (String × ℚ)`): updating an existing key keeps its position, inserting
  appends, mirroring dict insertion-order semantics.
* Float weights and scores are rationals (all weights involved are decimal
  constants, so this is exact).
* Network calls are abstracted as explicit inputs: an adapter is represented by
  the list of records it delivered (an adapter that raised contributes the empty
  list, exactly as the route's per-adapter `try/except` does).
* Python's process-seeded `hash()` for strings is a parameter `hashFn`.
-/

namespace CareerLens

/-! ### Character and string helpers (ASCII semantics of the Python code paths) -/

/-- Python `str.lower()` (character-wise; ASCII is all the source needs). -/
def toLowerStr (s : String) : String := ⟨s.data.map Char.toLower⟩

/-- Whitespace class `\s` / Python `str.isspace`. -/
def wsChar (c : Char) : Bool := c.isWhitespace

/-- Python `str.strip()`: drop whitespace from both ends. -/
def strTrim (s : String) : String :=
  ⟨((s.data.dropWhile wsChar).reverse.dropWhile wsChar).reverse⟩

/-- `pat` is a literal prefix of `cs`. -/
def leadsWith : List Char → List Char → Bool
  | [], _ => true
  | _ :: _, [] => false
  | p :: ps, c :: cs => p == c && leadsWith ps cs

/-- `pat` occurs somewhere inside `hay` (Python `pat in hay`; empty pattern matches). -/
def infixOf (pat : List Char) : List Char → Bool
  | [] => pat.isEmpty
  | c :: t => leadsWith pat (c :: t) || infixOf pat t

/-- Python `pat in hay` on strings. -/
def strContains (hay pat : String) : Bool := infixOf pat.toList hay.toList

/-- Regex `\w` over the lowered ASCII texts the source scans. -/
def wordChar (c : Char) : Bool := c.isAlphanum || c == '_'

def titleCaseGo : Bool → List Char → List Char
  | _, [] => []
  | prevAlpha, c :: t =>
    (if c.isAlpha then (if prevAlpha then c.toLower else c.toUpper) else c) ::
      titleCaseGo c.isAlpha t

/-- Python `str.title()`: first letter of every alphabetic run uppercased, the
rest lowercased, non-letters untouched. -/
def titleCase (s : String) : String := ⟨titleCaseGo false s.toList⟩

/-! ### Circuit breaker (`circuit_breaker.py`)

`CircuitBreaker` keeps one dict entry per provider name; entries for distinct
providers never interact, so the embedding models the state of one provider:
`Option Circuit`, with `none` standing for "provider not yet in `self.circuits`".
-/

/-- `circuit['state']` ∈ {'closed', 'open', 'half-open'}.  (`opened` because
`open` is a Lean keyword.) -/
inductive BState where
  | closed
  | opened
  | halfOpen
deriving DecidableEq, Repr

/-- One value of the `self.circuits` dict: `{'state', 'failures', 'opened_at'}`.
The transient `half_open_at` debug field is never read and is omitted. -/
structure Circuit where
  state : BState
  failures : Nat
  openedAt : Option Int
deriving DecidableEq, Repr

/-- Constructor arguments of `CircuitBreaker.__init__`. -/
structure BreakerConfig where
  failureThreshold : Nat
  timeoutSeconds : Int
deriving DecidableEq, Repr

/-- The module-level `circuit_breaker = CircuitBreaker(failure_threshold=3, timeout_seconds=60)`. -/
def defaultBreaker : BreakerConfig := ⟨3, 60⟩

/-- `CircuitBreaker.is_open(provider_name)` at clock time `now`: returns the
boolean result and the (possibly mutated) circuit entry.  When the state is
`open`, `opened_at` is always set (proved below as part of the reachability
invariant); `getD 0` only fills the type. -/
def isOpenStep (cfg : BreakerConfig) (c : Option Circuit) (now : Int) :
    Bool × Option Circuit :=
  match c with
  | none => (false, none)
  | some circ =>
    match circ.state with
    | .closed => (false, some circ)
    | .opened =>
      let elapsed := now - circ.openedAt.getD 0
      if cfg.timeoutSeconds ≤ elapsed then
        (false, some { circ with state := .halfOpen })
      else
        (true, some circ)
    | .halfOpen => (false, some circ)

/-- `CircuitBreaker.record_success(provider_name)`. -/
def recordSuccess (c : Option Circuit) : Option Circuit :=
  match c with
  | none => some ⟨.closed, 0, none⟩
  | some _ => some ⟨.closed, 0, none⟩

/-- `CircuitBreaker.record_failure(provider_name)` at clock time `now`. -/
def recordFailure (cfg : BreakerConfig) (c : Option Circuit) (now : Int) :
    Option Circuit :=
  let circ := c.getD ⟨.closed, 0, none⟩
  let f := circ.failures + 1
  if circ.state = .halfOpen then
    some ⟨.opened, f, some now⟩
  else if cfg.failureThreshold ≤ f then
    some ⟨.opened, f, some now⟩
  else
    some ⟨circ.state, f, circ.openedAt⟩

/-- One call on a provider's breaker entry, tagged with the clock time at which
it happens (`record_success` does not read the clock). -/
inductive BreakerOp where
  | fail (t : Int)
  | succ
  | probe (t : Int)
deriving DecidableEq, Repr

def applyOp (cfg : BreakerConfig) (c : Option Circuit) : BreakerOp → Option Circuit
  | .fail t => recordFailure cfg c t
  | .succ => recordSuccess c
  | .probe t => (isOpenStep cfg c t).2

/-- The provider state after a sequence of calls. -/
def runOps (cfg : BreakerConfig) (c : Option Circuit) (ops : List BreakerOp) :
    Option Circuit :=
  ops.foldl (applyOp cfg) c

/-- Clock time of an op (`record_success` never reads it; 0 is a placeholder). -/
def opTime : BreakerOp → Int
  | .fail t => t
  | .succ => 0
  | .probe t => t

/-- Structural invariant of reachable breaker entries: a non-closed state always
has at least `failure_threshold` consecutive failures, and an open state always
carries its `opened_at` timestamp. -/
def FailInv (cfg : BreakerConfig) : Option Circuit → Prop
  | none => True
  | some c =>
    ((c.state = .opened ∨ c.state = .halfOpen) → cfg.failureThreshold ≤ c.failures) ∧
      (c.state = .opened → c.openedAt ≠ none)

theorem failInv_applyOp (cfg : BreakerConfig) (c : Option Circuit)
    (hc : FailInv cfg c) (op : BreakerOp) : FailInv cfg (applyOp cfg c op) := by
  cases op with
  | succ =>
    cases c <;> simp [applyOp, recordSuccess, FailInv]
  | fail t =>
    cases c with
    | none =>
      show FailInv cfg (recordFailure cfg none t)
      simp only [recordFailure, Option.getD]
      split
      · simp_all
      · split
        · rename_i hth
          exact ⟨fun _ => hth, fun _ => by simp⟩
        · exact ⟨by simp, by simp⟩
    | some circ =>
      obtain ⟨st, f, oa⟩ := circ
      obtain ⟨h1, h2⟩ := hc
      show FailInv cfg (recordFailure cfg (some ⟨st, f, oa⟩) t)
      simp only [recordFailure, Option.getD]
      split
      · rename_i hho
        refine ⟨fun _ => ?_, fun h => by simp⟩
        exact le_trans (h1 (Or.inr hho)) (Nat.le_succ _)
      · split
        · rename_i hth
          exact ⟨fun _ => hth, fun h => by simp⟩
        · rename_i hho hth
          refine ⟨?_, ?_⟩
          · rintro (h | h)
            · exact absurd (le_trans (h1 (Or.inl h)) (Nat.le_succ _)) hth
            · exact absurd h hho
          · intro h
            exact absurd (le_trans (h1 (Or.inl h)) (Nat.le_succ _)) hth
  | probe t =>
    cases c with
    | none => simp [applyOp, isOpenStep, FailInv]
    | some circ =>
      obtain ⟨st, f, oa⟩ := circ
      obtain ⟨h1, h2⟩ := hc
      cases st with
      | closed => exact ⟨h1, h2⟩
      | opened =>
        show FailInv cfg (isOpenStep cfg (some ⟨.opened, f, oa⟩) t).2
        simp only [isOpenStep]
        split
        · exact ⟨fun _ => h1 (Or.inl rfl), fun h => by simp at h⟩
        · exact ⟨h1, h2⟩
      | halfOpen => exact ⟨h1, h2⟩

theorem failInv_runOps (cfg : BreakerConfig) (ops : List BreakerOp) :
    FailInv cfg (runOps cfg none ops) := by
  have h : ∀ c, FailInv cfg c → FailInv cfg (runOps cfg c ops) := by
    induction ops with
    | nil => intro c hc; exact hc
    | cons op rest ih =>
      intro c hc
      exact ih _ (failInv_applyOp cfg c hc op)
  exact h none trivial

/-- **C5** — At every reachable breaker state, evaluated at the clock time of the
call that produced it, `state == open` holds only while the consecutive failure
count is at least `failure_threshold` and strictly less than `timeout_seconds`
have elapsed since `opened_at`. -/
theorem circuit_open_invariant (cfg : BreakerConfig)
    (hτ : 0 < cfg.timeoutSeconds) (ops : List BreakerOp) (op : BreakerOp)
    (c : Circuit) (hrun : runOps cfg none (ops ++ [op]) = some c)
    (hopen : c.state = .opened) :
    cfg.failureThreshold ≤ c.failures ∧
      ∃ s, c.openedAt = some s ∧ opTime op - s < cfg.timeoutSeconds := by
  have hstep : applyOp cfg (runOps cfg none ops) op = some c := by
    simpa [runOps, List.foldl_append] using hrun
  have hinv := failInv_runOps cfg ops
  set c₀ := runOps cfg none ops with hc₀
  clear_value c₀
  cases op with
  | succ =>
    cases c₀ <;>
      simp only [applyOp, recordSuccess, Option.some.injEq] at hstep <;>
      rw [← hstep] at hopen <;> simp at hopen
  | fail t =>
    cases c₀ with
    | none =>
      simp only [applyOp, recordFailure, Option.getD] at hstep
      split at hstep
      · rename_i hho
        simp at hho
      · split at hstep
        · rename_i hth
          cases hstep
          exact ⟨hth, t, rfl, by simpa [opTime] using hτ⟩
        · cases hstep
          simp at hopen
    | some circ =>
      obtain ⟨st, f, oa⟩ := circ
      obtain ⟨h1, _⟩ := hinv
      simp only [applyOp, recordFailure, Option.getD] at hstep
      split at hstep
      · rename_i hho
        cases hstep
        refine ⟨le_trans (h1 (Or.inr hho)) (Nat.le_succ _), t, rfl, ?_⟩
        simpa [opTime] using hτ
      · split at hstep
        · rename_i hth
          cases hstep
          exact ⟨hth, t, rfl, by simpa [opTime] using hτ⟩
        · rename_i hho hth
          cases hstep
          exact absurd (le_trans (h1 (Or.inl hopen)) (Nat.le_succ _)) hth
  | probe t =>
    cases c₀ with
    | none =>
      simp only [applyOp, isOpenStep] at hstep
      exact Option.noConfusion hstep
    | some circ =>
      obtain ⟨st, f, oa⟩ := circ
      obtain ⟨h1, h2⟩ := hinv
      cases st with
      | closed =>
        simp only [applyOp, isOpenStep, Option.some.injEq] at hstep
        rw [← hstep] at hopen
        simp at hopen
      | opened =>
        simp only [applyOp, isOpenStep] at hstep
        split at hstep
        · simp only [Option.some.injEq] at hstep
          rw [← hstep] at hopen
          simp at hopen
        · rename_i hlt
          simp only [Option.some.injEq] at hstep
          rw [← hstep]
          refine ⟨h1 (Or.inl rfl), ?_⟩
          obtain ⟨s, hs⟩ := Option.ne_none_iff_exists'.mp (h2 rfl)
          refine ⟨s, hs, ?_⟩
          rw [not_le] at hlt
          rw [show oa = some s from hs] at hlt
          simpa [opTime] using hlt
      | halfOpen =>
        simp only [applyOp, isOpenStep, Option.some.injEq] at hstep
        rw [← hstep] at hopen
        simp at hopen

/-- Witness for `circuit_open_invariant`: three failures at times 0, 0, 1 open
the circuit with 3 recorded failures and `opened_at = 1`. -/
theorem circuit_open_invariant_witness :
    (0 : Int) < 60 ∧
      (defaultBreaker.failureThreshold ≤ 3 ∧
        ∃ s, (some 1 : Option Int) = some s ∧
          opTime (.fail 1) - s < defaultBreaker.timeoutSeconds) := by
  refine ⟨by norm_num, ?_⟩
  exact circuit_open_invariant defaultBreaker (by norm_num [defaultBreaker])
    [.fail 0, .fail 0] (.fail 1) ⟨.opened, 3, some 1⟩ (by rfl) (by rfl)

/-- **C2** — with the default configuration (threshold 3, timeout 60 s): three
consecutive `record_failure` calls starting from no history open the circuit;
`is_open` answers `true` while less than 60 s have elapsed since the third
failure; the first `is_open` after 60 s answers `false` and moves the state to
half-open; a following `record_success` resets failures to 0 and closes. -/
theorem breaker_cycle (t1 t2 t3 t t4 : Int)
    (hlt : t - t3 < 60) (hge : 60 ≤ t4 - t3) :
    (recordFailure defaultBreaker
        (recordFailure defaultBreaker
          (recordFailure defaultBreaker none t1) t2) t3
      = some ⟨.opened, 3, some t3⟩) ∧
    (isOpenStep defaultBreaker (some ⟨.opened, 3, some t3⟩) t).1 = true ∧
    (isOpenStep defaultBreaker (some ⟨.opened, 3, some t3⟩) t4
      = (false, some ⟨.halfOpen, 3, some t3⟩)) ∧
    recordSuccess (some ⟨.halfOpen, 3, some t3⟩) = some ⟨.closed, 0, none⟩ := by
  refine ⟨?_, ?_, ?_, rfl⟩
  · simp [recordFailure, defaultBreaker]
  · simp [isOpenStep, defaultBreaker, not_le.mpr hlt]
  · simp [isOpenStep, defaultBreaker, hge]

/-- Witness for `breaker_cycle` at times 0,0,0, probe at 59 and 60. -/
theorem breaker_cycle_witness :
    (recordFailure defaultBreaker
        (recordFailure defaultBreaker
          (recordFailure defaultBreaker none 0) 0) 0
      = some ⟨.opened, 3, some 0⟩) ∧
    (isOpenStep defaultBreaker (some ⟨.opened, 3, some 0⟩) 59).1 = true ∧
    (isOpenStep defaultBreaker (some ⟨.opened, 3, some 0⟩) 60
      = (false, some ⟨.halfOpen, 3, some 0⟩)) ∧
    recordSuccess (some ⟨.halfOpen, 3, some 0⟩) = some ⟨.closed, 0, none⟩ :=
  breaker_cycle 0 0 0 59 60 (by norm_num) (by norm_num)

/-! ### Resilient HTTP client (`http_client.py`, `ResilientHTTPClient.get`)

An HTTP attempt is abstracted by its outcome: `outcomes i = true` means attempt
number `i` would return a 2xx response, `false` means it would end in one of the
caught exceptions (`HTTPStatusError`/`TimeoutException`/`ConnectError`).
The breaker entry of the provider is threaded through explicitly.
-/

/-- `timeout`/`connect_timeout` never influence control flow in the embedding;
`max_retries` and `retry_delay` do. -/
structure HttpConfig where
  maxRetries : Nat
  retryDelay : ℚ
deriving DecidableEq, Repr

/-- The module-level `http_client = ResilientHTTPClient(timeout=12.0, connect_timeout=5.0, max_retries=2)`. -/
def defaultHttp : HttpConfig := ⟨2, 1⟩

/-- Observable behaviour of one `get` call: which attempt succeeded (`none` =
the call raised), how many HTTP attempts were performed, the back-off sleeps
executed between attempts, how many times `record_failure` ran, and the final
breaker entry. -/
structure GetResult where
  succAt : Option Nat
  attempts : Nat
  delays : List ℚ
  failRecords : Nat
  circuit : Option Circuit
deriving DecidableEq, Repr

/-- The `for attempt in range(self.max_retries + 1)` loop of `get`.  `fuel` is
the number of loop iterations still available (`maxRetries + 1 - attempt`); the
`fuel = 0` row is the `# Should never reach here` epilogue (lines 83–85), which
also records a failure and raises. -/
def getLoop (bcfg : BreakerConfig) (cfg : HttpConfig) (outcomes : Nat → Bool)
    (now : Int) : Nat → Nat → Option Circuit → GetResult
  | 0, _, c => ⟨none, 0, [], 1, recordFailure bcfg c now⟩
  | fuel + 1, attempt, c =>
    if outcomes attempt then
      ⟨some attempt, 1, [], 0, recordSuccess c⟩
    else if attempt = cfg.maxRetries then
      ⟨none, 1, [], 1, recordFailure bcfg c now⟩
    else
      let r := getLoop bcfg cfg outcomes now fuel (attempt + 1) c
      ⟨r.succAt, r.attempts + 1, cfg.retryDelay * 2 ^ attempt :: r.delays,
        r.failRecords, r.circuit⟩

/-- `ResilientHTTPClient.get`: breaker gate, then the retry loop. -/
def httpGet (bcfg : BreakerConfig) (cfg : HttpConfig) (c : Option Circuit)
    (now : Int) (outcomes : Nat → Bool) : GetResult :=
  let gate := isOpenStep bcfg c now
  if gate.1 then
    ⟨none, 0, [], 0, gate.2⟩
  else
    getLoop bcfg cfg outcomes now (cfg.maxRetries + 1) 0 gate.2

/-- Index of the first successful attempt among `0 … maxRetries`, if any. -/
def firstSuccess (outcomes : Nat → Bool) (maxRetries : Nat) : Option Nat :=
  (List.range (maxRetries + 1)).find? outcomes

theorem getLoop_attempts_pos (bcfg : BreakerConfig) (cfg : HttpConfig)
    (outcomes : Nat → Bool) (now : Int) (fuel attempt : Nat)
    (c : Option Circuit) (hf : 0 < fuel) :
    0 < (getLoop bcfg cfg outcomes now fuel attempt c).attempts := by
  cases fuel with
  | zero => exact absurd hf (lt_irrefl 0)
  | succ n =>
    simp only [getLoop]
    split
    · simp
    · split
      · simp
      · simp

theorem getLoop_success (bcfg : BreakerConfig) (cfg : HttpConfig)
    (outcomes : Nat → Bool) (now : Int) :
    ∀ fuel attempt c k, attempt ≤ k → k < attempt + fuel →
      outcomes k = true → (∀ j, attempt ≤ j → j < k → outcomes j = false) →
      k ≤ cfg.maxRetries →
      getLoop bcfg cfg outcomes now fuel attempt c =
        ⟨some k, k - attempt + 1,
          (List.range' attempt (k - attempt)).map (fun i => cfg.retryDelay * 2 ^ i),
          0, recordSuccess c⟩ := by
  intro fuel
  induction fuel with
  | zero =>
    intro attempt c k h1 h2 _ _ _
    omega
  | succ n ih =>
    intro attempt c k h1 h2 hk hpre hmax
    simp only [getLoop]
    rcases Nat.eq_or_lt_of_le h1 with heq | hlt
    · subst heq
      rw [hk]
      simp
    · have hfail : outcomes attempt = false := hpre attempt le_rfl hlt
      rw [hfail]
      simp only [Bool.false_eq_true, if_false]
      have hne : attempt ≠ cfg.maxRetries := by omega
      rw [if_neg hne]
      rw [ih (attempt + 1) c k hlt (by omega) hk
        (fun j hj1 hj2 => hpre j (by omega) hj2) hmax]
      have hrange : List.range' attempt (k - attempt) =
          attempt :: List.range' (attempt + 1) (k - (attempt + 1)) := by
        have : k - attempt = (k - (attempt + 1)) + 1 := by omega
        rw [this, List.range'_succ]
      rw [hrange]
      simp only [List.map_cons]
      congr 1
      omega

theorem getLoop_allFail (bcfg : BreakerConfig) (cfg : HttpConfig)
    (outcomes : Nat → Bool) (now : Int) :
    ∀ fuel attempt c, attempt + fuel = cfg.maxRetries + 1 →
      (∀ j, attempt ≤ j → j ≤ cfg.maxRetries → outcomes j = false) →
      getLoop bcfg cfg outcomes now fuel attempt c =
        ⟨none, fuel,
          (List.range' attempt (fuel - 1)).map (fun i => cfg.retryDelay * 2 ^ i),
          1, recordFailure bcfg c now⟩ := by
  intro fuel
  induction fuel with
  | zero =>
    intro attempt c hsum _
    simp [getLoop]
  | succ n ih =>
    intro attempt c hsum hfail
    simp only [getLoop]
    rw [hfail attempt le_rfl (by omega)]
    simp only [Bool.false_eq_true, if_false]
    by_cases hend : attempt = cfg.maxRetries
    · rw [if_pos hend]
      have hn : n = 0 := by omega
      subst hn
      simp
    · rw [if_neg hend]
      rw [ih (attempt + 1) c (by omega) (fun j hj1 hj2 => hfail j (by omega) hj2)]
      have hn : 0 < n := by omega
      have hrange : List.range' attempt n =
          attempt :: List.range' (attempt + 1) (n - 1) := by
        have : n = (n - 1) + 1 := by omega
        rw [this, List.range'_succ]
        simp
      simp [GetResult.mk.injEq, Nat.succ_sub_one, hrange, List.map_cons]

/-- **C6** — `get` raises without any HTTP attempt exactly when the breaker
gate reports open; otherwise it runs at most `max_retries + 1` attempts with
back-off `retry_delay * 2^attempt` between consecutive attempts, records one
success and returns at the first successful attempt, and records exactly one
failure and raises when every attempt fails. -/
theorem httpGet_behavior (bcfg : BreakerConfig) (cfg : HttpConfig)
    (c : Option Circuit) (now : Int) (outcomes : Nat → Bool) :
    (((httpGet bcfg cfg c now outcomes).succAt = none ∧
        (httpGet bcfg cfg c now outcomes).attempts = 0) ↔
      (isOpenStep bcfg c now).1 = true) ∧
    ((isOpenStep bcfg c now).1 = false →
      (∀ k, k ≤ cfg.maxRetries → outcomes k = true →
        (∀ j, j < k → outcomes j = false) →
        httpGet bcfg cfg c now outcomes =
          ⟨some k, k + 1,
            (List.range k).map (fun i => cfg.retryDelay * 2 ^ i), 0,
            recordSuccess (isOpenStep bcfg c now).2⟩) ∧
      ((∀ j, j ≤ cfg.maxRetries → outcomes j = false) →
        httpGet bcfg cfg c now outcomes =
          ⟨none, cfg.maxRetries + 1,
            (List.range cfg.maxRetries).map (fun i => cfg.retryDelay * 2 ^ i), 1,
            recordFailure bcfg (isOpenStep bcfg c now).2 now⟩)) := by
  constructor
  · constructor
    · rintro ⟨h1, h2⟩
      by_contra hopen
      have hfalse : (isOpenStep bcfg c now).1 = false := by
        cases h : (isOpenStep bcfg c now).1
        · rfl
        · exact absurd h hopen
      have : httpGet bcfg cfg c now outcomes =
          getLoop bcfg cfg outcomes now (cfg.maxRetries + 1) 0
            (isOpenStep bcfg c now).2 := by
        simp [httpGet, hfalse]
      rw [this] at h2
      have := getLoop_attempts_pos bcfg cfg outcomes now (cfg.maxRetries + 1) 0
        (isOpenStep bcfg c now).2 (Nat.succ_pos _)
      omega
    · intro hopen
      simp [httpGet, hopen]
  · intro hclosed
    have hred : httpGet bcfg cfg c now outcomes =
        getLoop bcfg cfg outcomes now (cfg.maxRetries + 1) 0
          (isOpenStep bcfg c now).2 := by
      simp [httpGet, hclosed]
    constructor
    · intro k hk hsucc hpre
      rw [hred]
      rw [getLoop_success bcfg cfg outcomes now (cfg.maxRetries + 1) 0 _ k
        (Nat.zero_le k) (by omega) hsucc (fun j _ hj => hpre j hj) hk]
      simp [List.range_eq_range']
    · intro hfail
      rw [hred]
      rw [getLoop_allFail bcfg cfg outcomes now (cfg.maxRetries + 1) 0 _
        (by omega) (fun j _ hj => hfail j hj)]
      simp [List.range_eq_range']

/-- Witness for `httpGet_behavior`: default client (2 retries, base delay 1),
fresh breaker entry, attempt 0 fails and attempt 1 succeeds: two attempts, one
back-off sleep of 1 s, success recorded. -/
theorem httpGet_behavior_witness :
    (isOpenStep defaultBreaker none 0).1 = false ∧
      httpGet defaultBreaker defaultHttp none 0 (fun i => i == 1) =
        ⟨some 1, 2, [1], 0, recordSuccess (isOpenStep defaultBreaker none 0).2⟩ := by
  refine ⟨rfl, ?_⟩
  have h := ((httpGet_behavior defaultBreaker defaultHttp none 0
    (fun i => i == 1)).2 rfl).1 1 (by norm_num [defaultHttp]) (by decide)
    (by decide)
  simpa [defaultHttp] using h

/-! ### Skill vectors and the scoring engine (`job_scoring_svc.py`)

A Python dict `{skill: weight}` is an association list whose update keeps the
position of an existing key and appends a new one (dict insertion order).
-/

abbrev SkillVec := List (String × ℚ)

def lookupW : SkillVec → String → Option ℚ
  | [], _ => none
  | (k', w') :: t, k => if k' = k then some w' else lookupW t k

/-- `vec[k] = w` on a dict: overwrite in place or append. -/
def setW : SkillVec → String → ℚ → SkillVec
  | [], k, w => [(k, w)]
  | (k', w') :: t, k, w => if k' = k then (k, w) :: t else (k', w') :: setW t k w

/-- The `exact_tools` allowlist inside `score_job_match`. -/
def exactTools : List String :=
  ["fastapi", "redshift", "snowflake", "bigquery", "airflow", "kafka",
   "terraform", "kubernetes"]

/-- The candidate-vector scan of `score_job_match`: first candidate entry whose
key equals the normalized JD skill or contains it / is contained in it. -/
def findCandidateWeight (jdl : String) : SkillVec → Option ℚ
  | [] => none
  | (ck, cw) :: t =>
    if ck = jdl then some cw
    else if strContains ck jdl || strContains jdl ck then some cw
    else findCandidateWeight jdl t

/-- Accumulator of the `for jd_skill, jd_weight in jd_vector.items()` loop:
running score delta and the entry lists in generation order. -/
structure ScoreAcc where
  score : Int
  whyFit : List String
  gaps : List String
deriving DecidableEq, Repr

/-- One iteration of the scoring loop (lines 189–248 of `job_scoring_svc.py`). -/
def scoreStep (cv : SkillVec) (resumeLower : String) (acc : ScoreAcc)
    (entry : String × ℚ) : ScoreAcc :=
  let jdSkill := entry.1
  let jdWeight := entry.2
  let jdl := strTrim (toLowerStr jdSkill)
  match findCandidateWeight jdl cv with
  | some cw =>
    let (bonus, fitEntry) :=
      if 1 ≤ cw then ((10 : Int), titleCase jdSkill ++ " ✓ (core skill)")
      else if mkRat 7 10 ≤ cw then (5, titleCase jdSkill ++ " ✓ (adjacent skill)")
      else if mkRat 1 2 ≤ cw then (3, titleCase jdSkill ++ " ✓ (advanced skill)")
      else (2, titleCase jdSkill ++ " ✓ (mentioned)")
    let acc : ScoreAcc :=
      ⟨acc.score + bonus, acc.whyFit ++ [fitEntry], acc.gaps⟩
    let acc : ScoreAcc :=
      if jdl ∈ exactTools then
        ⟨acc.score + 5,
          acc.whyFit ++ ["Exact tool match: " ++ titleCase jdSkill ++ " (+5)"],
          acc.gaps⟩
      else acc
    if strContains resumeLower jdl then
      ⟨acc.score + 2, acc.whyFit, acc.gaps⟩
    else acc
  | none =>
    if 1 ≤ jdWeight then
      ⟨acc.score - 8, acc.whyFit,
        acc.gaps ++ [titleCase jdSkill ++ " ❌ (required)"]⟩
    else
      ⟨acc.score - 4, acc.whyFit,
        acc.gaps ++ [titleCase jdSkill ++ " ❌ (preferred)"]⟩

/-- The full scoring loop over the requirement vector. -/
def scoreLoop (cv jdv : SkillVec) (resumeLower : String) : ScoreAcc :=
  jdv.foldl (scoreStep cv resumeLower) ⟨0, [], []⟩

/-- Python `max` on two ints (kernel-computable). -/
def intMax (a b : Int) : Int := if a ≤ b then b else a

/-- Python `min` on two ints (kernel-computable). -/
def intMin (a b : Int) : Int := if a ≤ b then a else b

/-- `JobScoringService.score_job_match`: loop, clamp to `[0, 100]` around the
baseline 50, truncate `why_fit` to 5 and `gaps` to 3, default `why_fit`. -/
def scoreJobMatch (cv jdv : SkillVec) (resumeText : String) :
    Int × List String × List String :=
  let resumeLower := toLowerStr resumeText
  let acc := scoreLoop cv jdv resumeLower
  let normalized : Int := intMax 0 (intMin 100 (50 + acc.score))
  let whyFit := acc.whyFit.take 5
  let gaps := acc.gaps.take 3
  let whyFit := if whyFit.isEmpty then ["Relevant role match"] else whyFit
  (normalized, whyFit, gaps)

/-- **C3** — the spec's worked example: candidate `{python: 1.0, sql: 1.0}`,
requirements `{python: 1.0, sql: 1.0, react: 1.0}`, empty resume: score
`62 = clamp(50+10+10-8, 0, 100)` with python and sql in `why_fit` and react in
`gaps`. -/
theorem score_example :
    scoreJobMatch [("python", 1), ("sql", 1)]
        [("python", 1), ("sql", 1), ("react", 1)] "" =
      (62, ["Python ✓ (core skill)", "Sql ✓ (core skill)"],
        ["React ❌ (required)"]) := by
  with_unfolding_all decide

/-- Counterexample to the spec's truncation rule: six requirement tokens where
the five low-weight matches (+2 each) come first in dict order and the core
match (+10) comes last.  `why_fit[:5]` keeps the first five entries, dropping
the highest-delta entry. -/
theorem truncation_counterexample :
    scoreJobMatch
        [("aa1", mkRat 3 10), ("aa2", mkRat 3 10), ("aa3", mkRat 3 10),
         ("aa4", mkRat 3 10), ("aa5", mkRat 3 10), ("bbb", 1)]
        [("aa1", mkRat 1 2), ("aa2", mkRat 1 2), ("aa3", mkRat 1 2),
         ("aa4", mkRat 1 2), ("aa5", mkRat 1 2), ("bbb", 1)] "" =
      (70,
        ["Aa1 ✓ (mentioned)", "Aa2 ✓ (mentioned)", "Aa3 ✓ (mentioned)",
         "Aa4 ✓ (mentioned)", "Aa5 ✓ (mentioned)"], []) ∧
    "Bbb ✓ (core skill)" ∉
      (scoreJobMatch
        [("aa1", mkRat 3 10), ("aa2", mkRat 3 10), ("aa3", mkRat 3 10),
         ("aa4", mkRat 3 10), ("aa5", mkRat 3 10), ("bbb", 1)]
        [("aa1", mkRat 1 2), ("aa2", mkRat 1 2), ("aa3", mkRat 1 2),
         ("aa4", mkRat 1 2), ("aa5", mkRat 1 2), ("bbb", 1)] "").2.1 := by
  with_unfolding_all decide

/-- **C4 (amended)** — `why_fit` keeps at most 5 and `gaps` at most 3 entries;
the kept entries are the *first* ones in requirement-vector iteration order
(not the highest-delta ones); when no requirement token matches, `why_fit` is
the single generic entry instead of being empty. -/
theorem truncation_amended (cv jdv : SkillVec) (resumeText : String) :
    (scoreJobMatch cv jdv resumeText).2.1.length ≤ 5 ∧
    (scoreJobMatch cv jdv resumeText).2.2.length ≤ 3 ∧
    (scoreJobMatch cv jdv resumeText).2.1 ≠ [] ∧
    (scoreJobMatch cv jdv resumeText).2.1 =
      (if (scoreLoop cv jdv (toLowerStr resumeText)).whyFit = [] then
        ["Relevant role match"]
      else (scoreLoop cv jdv (toLowerStr resumeText)).whyFit.take 5) ∧
    (scoreJobMatch cv jdv resumeText).2.2 =
      (scoreLoop cv jdv (toLowerStr resumeText)).gaps.take 3 := by
  set acc := scoreLoop cv jdv (toLowerStr resumeText) with hacc
  have hres : scoreJobMatch cv jdv resumeText =
      (intMax 0 (intMin 100 (50 + acc.score)),
        (if (acc.whyFit.take 5).isEmpty then ["Relevant role match"]
         else acc.whyFit.take 5),
        acc.gaps.take 3) := rfl
  have hgaps : (scoreJobMatch cv jdv resumeText).2.2 = acc.gaps.take 3 := by
    rw [hres]
  have hwhy : (scoreJobMatch cv jdv resumeText).2.1 =
      (if (acc.whyFit.take 5).isEmpty then ["Relevant role match"]
       else acc.whyFit.take 5) := by
    rw [hres]
  by_cases hempty : acc.whyFit = []
  · have : (scoreJobMatch cv jdv resumeText).2.1 = ["Relevant role match"] := by
      rw [hwhy, hempty]
      simp
    refine ⟨?_, ?_, ?_, ?_, hgaps⟩
    · rw [this]; simp
    · rw [hgaps]
      have := List.length_take 3 acc.gaps
      omega
    · rw [this]; simp
    · rw [this, if_pos hempty]
  · have htake : acc.whyFit.take 5 ≠ [] := by
      rw [Ne, List.take_eq_nil_iff]
      push_neg
      exact ⟨by omega, hempty⟩
    have hiso : (acc.whyFit.take 5).isEmpty = false := by
      simpa [List.isEmpty_iff] using htake
    have this2 : (scoreJobMatch cv jdv resumeText).2.1 = acc.whyFit.take 5 := by
      rw [hwhy, hiso]
      simp
    refine ⟨?_, ?_, ?_, ?_, hgaps⟩
    · rw [this2]
      have := List.length_take 5 acc.whyFit
      omega
    · rw [hgaps]
      have := List.length_take 3 acc.gaps
      omega
    · rw [this2]; exact htake
    · rw [this2, if_neg hempty]

/-- Sum of the gap penalties of a requirement vector nobody matches. -/
def gapPenalty : SkillVec → Int
  | [] => 0
  | (_, w) :: t => (if 1 ≤ w then 8 else 4) + gapPenalty t

/-- The gap entries generated for a requirement vector nobody matches. -/
def gapList : SkillVec → List String
  | [] => []
  | (k, w) :: t =>
    (titleCase k ++ (if 1 ≤ w then " ❌ (required)" else " ❌ (preferred)")) ::
      gapList t

theorem scoreLoop_empty_candidate (resumeLower : String) :
    ∀ (jdv : SkillVec) (acc : ScoreAcc),
      jdv.foldl (scoreStep [] resumeLower) acc =
        ⟨acc.score - gapPenalty jdv, acc.whyFit, acc.gaps ++ gapList jdv⟩ := by
  intro jdv
  induction jdv with
  | nil => intro acc; simp [gapPenalty, gapList]
  | cons hd t ih =>
    intro acc
    obtain ⟨k, w⟩ := hd
    rw [List.foldl_cons]
    have hstep : scoreStep [] resumeLower acc (k, w) =
        ⟨acc.score - (if 1 ≤ w then 8 else 4), acc.whyFit,
          acc.gaps ++
            [titleCase k ++
              (if 1 ≤ w then " ❌ (required)" else " ❌ (preferred)")]⟩ := by
      simp only [scoreStep, findCandidateWeight]
      by_cases h1 : 1 ≤ w
      · simp [h1]
      · simp [h1]
    rw [hstep, ih]
    have harith : ∀ X : Int, acc.score - X - gapPenalty t =
        acc.score - (X + gapPenalty t) := by
      intro X
      ring
    simp [gapPenalty, gapList, harith]

/-- Counterexample to the "neutral baseline" claim: an empty candidate vector
against requirement `{react: 1.0}` yields score 42 (= 50 − 8), not 50. -/
theorem empty_vector_counterexample :
    scoreJobMatch [] [("react", 1)] "" =
      (42, ["Relevant role match"], ["React ❌ (required)"]) := by
  with_unfolding_all decide

/-- **C9 (amended)** — `score_job_match` is total on empty vectors: an empty
requirement vector yields exactly the neutral baseline 50 (generic `why_fit`,
no gaps); an empty candidate vector is treated as zero matches, so the score is
50 minus the accumulated gap penalties, clamped to `[0, 100]`. -/
theorem empty_vectors_amended :
    (∀ (cv : SkillVec) (resumeText : String),
      scoreJobMatch cv [] resumeText = (50, ["Relevant role match"], [])) ∧
    (∀ (jdv : SkillVec) (resumeText : String),
      scoreJobMatch [] jdv resumeText =
        (intMax 0 (intMin 100 (50 - gapPenalty jdv)), ["Relevant role match"],
          (gapList jdv).take 3)) := by
  constructor
  · intro cv resumeText
    rfl
  · intro jdv resumeText
    show (intMax 0 (intMin 100 (50 + (scoreLoop [] jdv (toLowerStr resumeText)).score)),
        (if ((scoreLoop [] jdv (toLowerStr resumeText)).whyFit.take 5).isEmpty then
          ["Relevant role match"]
        else (scoreLoop [] jdv (toLowerStr resumeText)).whyFit.take 5),
        (scoreLoop [] jdv (toLowerStr resumeText)).gaps.take 3) = _
    rw [show scoreLoop [] jdv (toLowerStr resumeText) =
        ⟨0 - gapPenalty jdv, [], [] ++ gapList jdv⟩ from
      scoreLoop_empty_candidate (toLowerStr resumeText) jdv ⟨0, [], []⟩]
    have harith : (50 : Int) + (0 - gapPenalty jdv) = 50 - gapPenalty jdv := by
      ring
    simp only [List.nil_append, List.take_nil, List.isEmpty_nil, harith]
    rfl


/-! ### Requirement-vector builder (`extract_jd_skills`, `job_scoring_svc.py`)

The source scans the lowered text with `re.finditer(kw + ".*?(\\w+)", ...)`:
each literal keyword occurrence is located left to right and the lazy `.*?`
expands to the first following word character (never across a newline, since
`.` does not match newlines), where the greedy `(\\w+)` captures the maximal
word run; scanning resumes after the capture (matches do not overlap).
-/

/-- Capture of `.*?(\\w+)` after a keyword occurrence: the next maximal word
run, unless a newline intervenes.  Returns the capture and the rest of the
text after it. -/
def captureAfter : List Char → Option (String × List Char)
  | [] => none
  | c :: t =>
    if wordChar c then
      some (⟨(c :: t).takeWhile wordChar⟩, (c :: t).dropWhile wordChar)
    else if c = '\n' then none
    else captureAfter t

/-- Remainder of `text` after the first occurrence of the literal `kw`. -/
def afterKeyword (kw : List Char) : List Char → Option (List Char)
  | [] => if kw.isEmpty then some [] else none
  | c :: t =>
    if leadsWith kw (c :: t) then some ((c :: t).drop kw.length)
    else afterKeyword kw t

/-- All captures of `re.finditer(kw + ".*?(\\w+)", text)`; `fuel` only bounds
the recursion (every step consumes at least one character of `text`). -/
def keywordCapturesGo (kw : List Char) : Nat → List Char → List String
  | 0, _ => []
  | fuel + 1, text =>
    match afterKeyword kw text with
    | none => []
    | some rest =>
      match captureAfter rest with
      | some (cap, rest') => cap :: keywordCapturesGo kw fuel rest'
      | none => keywordCapturesGo kw fuel rest

def keywordCaptures (kw : String) (text : List Char) : List String :=
  keywordCapturesGo kw.toList text.length text

/-- Number of non-overlapping occurrences of `pat` in `text`
(Python `str.count`; the patterns used are never empty). -/
def countOccGo (pat : List Char) : Nat → List Char → Nat
  | 0, _ => 0
  | fuel + 1, text =>
    match afterKeyword pat text with
    | none => 0
    | some rest => 1 + countOccGo pat fuel rest

def countOcc (pat : String) (text : List Char) : Nat :=
  countOccGo pat.toList text.length text

/-- Keyword stems of `required_patterns` (lines 105–111). -/
def requiredKeywords : List String :=
  ["required", "must have", "essential", "need", "requirement"]

/-- Keyword stems of `preferred_patterns` (lines 121–126). -/
def preferredKeywords : List String :=
  ["preferred", "nice to have", "bonus", "plus"]

/-- The `tech_skills` vocabulary (lines 83–102). -/
def techSkills : List String :=
  ["python", "java", "javascript", "typescript", "go", "rust", "c++", "c#",
   "ruby", "php", "swift", "kotlin",
   "react", "angular", "vue", "node.js", "django", "flask", "fastapi",
   "spring", "express", "next.js",
   "sql", "postgresql", "mysql", "mongodb", "redis", "elasticsearch",
   "dynamodb", "cassandra",
   "aws", "azure", "gcp", "docker", "kubernetes", "terraform", "jenkins",
   "ci/cd", "github actions",
   "pandas", "numpy", "scikit-learn", "tensorflow", "pytorch", "spark",
   "hadoop", "kafka", "airflow",
   "git", "linux", "bash", "rest api", "graphql", "microservices", "agile",
   "scrum",
   "tableau", "power bi", "looker", "snowflake", "redshift", "bigquery",
   "s3", "etl",
   "html", "css", "sass", "tailwind", "webpack", "vite", "jest", "cypress",
   "api", "rest", "graphql", "grpc", "message queue", "rabbitmq", "celery"]

/-- The required-skill pass: every capture longer than 2 characters is set to
weight 1.0 unconditionally. -/
def assignRequired (v : SkillVec) (text : List Char) : SkillVec :=
  requiredKeywords.foldl
    (fun v kw =>
      (keywordCaptures kw text).foldl
        (fun v cap =>
          let sk := strTrim (toLowerStr cap)
          if 2 < sk.length then setW v sk 1 else v) v) v

/-- One capture of the preferred-skill pass: a capture longer than 2
characters is set to weight 0.5 only when the skill is not yet assigned. -/
def prefStep (v : SkillVec) (cap : String) : SkillVec :=
  let sk := strTrim (toLowerStr cap)
  if 2 < sk.length then
    match lookupW v sk with
    | none => setW v sk (mkRat 1 2)
    | some _ => v
  else v

/-- The preferred-skill pass (lines 128–134). -/
def assignPreferred (v : SkillVec) (text : List Char) : SkillVec :=
  preferredKeywords.foldl
    (fun v kw => (keywordCaptures kw text).foldl prefStep v) v

/-- One iteration of the tech-vocabulary loop (lines 137–145): weight
`min(1.0, 0.5 + 0.1 * count)`, assigned when the skill is absent *or* its
current weight is lower. -/
def techStep (text : List Char) (v : SkillVec) (sk : String) : SkillVec :=
  let skl := toLowerStr sk
  let count := countOcc skl text
  if 0 < count then
    let w := min 1 (mkRat 1 2 + mkRat count 10)
    match lookupW v skl with
    | none => setW v skl w
    | some old => if old < w then setW v skl w else v
  else v

def assignTech (v : SkillVec) (text : List Char) : SkillVec :=
  techSkills.foldl (techStep text) v

/-- Value of the `int(...)` digits of a `(\\d+)` capture. -/
def digitsVal (ds : List Char) : Nat :=
  ds.foldl (fun n c => n * 10 + (c.toNat - 48)) 0

/-- One attempt of the `(\\d+)\\+?\\s*years?\\s*(?:of|experience)?\\s*(\\w+)`
fallback pattern at the head of `cs` (greedy, as the regex behaves on texts
where the optional group is followed by a word run). -/
def tryYearsAt (cs : List Char) : Option (Nat × String × List Char) :=
  let ds := cs.takeWhile Char.isDigit
  if ds.isEmpty then none
  else
    let r1 := cs.dropWhile Char.isDigit
    let r2 := if r1.head? = some '+' then r1.tail else r1
    let r3 := r2.dropWhile wsChar
    if leadsWith "year".toList r3 then
      let r4 := r3.drop 4
      let r5 := if r4.head? = some 's' then r4.tail else r4
      let r6 := r5.dropWhile wsChar
      let r7 :=
        if leadsWith "of".toList r6 then r6.drop 2
        else if leadsWith "experience".toList r6 then r6.drop 10
        else r6
      let r8 := r7.dropWhile wsChar
      let w := r8.takeWhile wordChar
      if w.isEmpty then none
      else some (digitsVal ds, ⟨w⟩, r8.dropWhile wordChar)
    else none

/-- Left-to-right non-overlapping scan of the years fallback pattern. -/
def yearsScanGo : Nat → List Char → List (Nat × String)
  | 0, _ => []
  | _ + 1, [] => []
  | fuel + 1, c :: t =>
    match tryYearsAt (c :: t) with
    | some (y, sk, rest) => (y, sk) :: yearsScanGo fuel rest
    | none => yearsScanGo fuel t

/-- `JobScoringService.extract_jd_skills(jd_text, jd_requirements)`. -/
def extractJdSkills (jdText : String) (jdReqs : List String) : SkillVec :=
  let fullText :=
    if jdReqs.isEmpty then jdText
    else jdText ++ " " ++ String.intercalate " " jdReqs
  let tl := (toLowerStr fullText).toList
  let v := assignRequired [] tl
  let v := assignPreferred v tl
  let v := assignTech v tl
  if v.isEmpty then
    (yearsScanGo tl.length tl).foldl
      (fun v (p : Nat × String) =>
        let sk := strTrim (toLowerStr p.2)
        if 2 < sk.length then setW v sk (min 1 (mkRat p.1 5)) else v) []
  else v

/-- Counterexample to "only if that skill has not already been assigned": in
"nice to have react react react" the preferred pass assigns react ↦ 0.5, and
the tech-vocabulary pass then *overrides* it with
`min(1.0, 0.5 + 0.1·3) = 0.8`. -/
theorem tech_override_counterexample :
    assignPreferred
        (assignRequired [] (toLowerStr "nice to have react react react").toList)
        (toLowerStr "nice to have react react react").toList =
      [("react", mkRat 1 2)] ∧
    extractJdSkills "nice to have react react react" [] =
      [("react", mkRat 4 5)] := by
  with_unfolding_all decide


theorem setW_lookup (v : SkillVec) (k : String) (w : ℚ) (s : String) :
    lookupW (setW v k w) s = if k = s then some w else lookupW v s := by
  induction v with
  | nil =>
    simp only [setW, lookupW]
  | cons hd t ih =>
    obtain ⟨k', w'⟩ := hd
    simp only [setW]
    by_cases hk : k' = k
    · subst hk
      rw [if_pos rfl]
      by_cases hs : k' = s <;> simp [lookupW, hs]
    · rw [if_neg hk]
      by_cases hs : k' = s
      · subst hs
        have hks : k ≠ k' := fun h => hk h.symm
        simp [lookupW, if_neg hks]
      · simp [lookupW, hs, ih]

theorem foldl_preserve {α : Type _} {β : Type _} {P : α → Prop}
    (f : α → β → α) (h : ∀ a b, P a → P (f a b)) :
    ∀ (l : List β) (a : α), P a → P (l.foldl f a) := by
  intro l
  induction l with
  | nil => intro a ha; exact ha
  | cons b t ih => intro a ha; exact ih _ (h a b ha)

/-- A single preferred-pass capture never changes an existing assignment. -/
theorem prefStep_preserves (v : SkillVec) (cap s : String) (w : ℚ)
    (hs : lookupW v s = some w) : lookupW (prefStep v cap) s = some w := by
  simp only [prefStep]
  split
  · split
    · rename_i hnone
      rw [setW_lookup]
      by_cases hks : strTrim (toLowerStr cap) = s
      · rw [hks] at hnone
        rw [hnone] at hs
        cases hs
      · rw [if_neg hks]
        exact hs
    · exact hs
  · exact hs

/-- The preferred pass never changes an existing assignment (it only inserts
absent keys with weight 0.5). -/
theorem assignPreferred_preserves (v : SkillVec) (text : List Char)
    (s : String) (w : ℚ) (hs : lookupW v s = some w) :
    lookupW (assignPreferred v text) s = some w := by
  unfold assignPreferred
  refine foldl_preserve (P := fun u => lookupW u s = some w) _ ?_
    preferredKeywords v hs
  intro v' kw hv'
  exact foldl_preserve (P := fun u => lookupW u s = some w) prefStep
    (fun a b ha => prefStep_preserves a b s w ha)
    (keywordCaptures kw text) v' hv'

/-- A preferred-pass capture keeps the target skill's assignment in
{unassigned, 0.5}: it can only create a 0.5 assignment. -/
theorem prefStep_halfOrNone (v : SkillVec) (cap s : String)
    (h : lookupW v s = none ∨ lookupW v s = some (mkRat 1 2)) :
    lookupW (prefStep v cap) s = none ∨
      lookupW (prefStep v cap) s = some (mkRat 1 2) := by
  rcases h with h | h
  · simp only [prefStep]
    split
    · split
      · rw [setW_lookup]
        by_cases hks : strTrim (toLowerStr cap) = s
        · rw [if_pos hks]
          right
          rfl
        · rw [if_neg hks]
          left
          exact h
      · left
        exact h
    · left
      exact h
  · right
    exact prefStep_preserves v cap s _ h

/-- Processing a capture longer than 2 characters assigns its normalized skill
0.5 when it is unassigned (and keeps an existing 0.5). -/
theorem prefStep_assigns (v : SkillVec) (cap : String)
    (hlen : 2 < (strTrim (toLowerStr cap)).length)
    (h : lookupW v (strTrim (toLowerStr cap)) = none ∨
      lookupW v (strTrim (toLowerStr cap)) = some (mkRat 1 2)) :
    lookupW (prefStep v cap) (strTrim (toLowerStr cap)) = some (mkRat 1 2) := by
  rcases h with h | h
  · simp only [prefStep]
    rw [if_pos hlen, h]
    dsimp only
    rw [setW_lookup, if_pos rfl]
  · exact prefStep_preserves v cap _ _ h

/-- Folding the preferred step over a capture list containing `cap` (longer
than 2 characters) ends with `cap`'s normalized skill assigned 0.5, provided it
started unassigned or already 0.5. -/
theorem prefFold_assigns (cap : String)
    (hlen : 2 < (strTrim (toLowerStr cap)).length) :
    ∀ (caps : List String) (v : SkillVec),
      (lookupW v (strTrim (toLowerStr cap)) = none ∨
        lookupW v (strTrim (toLowerStr cap)) = some (mkRat 1 2)) →
      cap ∈ caps →
      lookupW (caps.foldl prefStep v) (strTrim (toLowerStr cap)) =
        some (mkRat 1 2) := by
  intro caps
  induction caps with
  | nil => intro v _ hmem; cases hmem
  | cons h t ih =>
    intro v hq hmem
    rw [List.foldl_cons]
    by_cases hmem2 : cap ∈ t
    · exact ih _ (prefStep_halfOrNone v h _ hq) hmem2
    · have heq : cap = h := by
        rcases List.mem_cons.mp hmem with h1 | h1
        · exact h1
        · exact absurd h1 hmem2
      subst heq
      exact foldl_preserve
        (P := fun u => lookupW u (strTrim (toLowerStr cap)) = some (mkRat 1 2))
        prefStep (fun a b ha => prefStep_preserves a b _ _ ha) t _
        (prefStep_assigns v cap hlen hq)

/-- A skill captured (with more than 2 characters) after any preferred keyword
and unassigned before the preferred pass is assigned 0.5 by it. -/
theorem assignPreferred_assigns (v : SkillVec) (text : List Char)
    (kw cap : String) (hkw : kw ∈ preferredKeywords)
    (hcap : cap ∈ keywordCaptures kw text)
    (hlen : 2 < (strTrim (toLowerStr cap)).length)
    (hnone : lookupW v (strTrim (toLowerStr cap)) = none) :
    lookupW (assignPreferred v text) (strTrim (toLowerStr cap)) =
      some (mkRat 1 2) := by
  have main : ∀ (kws : List String) (u : SkillVec),
      (lookupW u (strTrim (toLowerStr cap)) = none ∨
        lookupW u (strTrim (toLowerStr cap)) = some (mkRat 1 2)) →
      kw ∈ kws →
      lookupW
          (kws.foldl (fun u kw2 => (keywordCaptures kw2 text).foldl prefStep u) u)
          (strTrim (toLowerStr cap)) = some (mkRat 1 2) := by
    intro kws
    induction kws with
    | nil => intro u _ hmem; cases hmem
    | cons k t ih =>
      intro u hq hmem
      rw [List.foldl_cons]
      by_cases hmem2 : kw ∈ t
      · refine ih _ ?_ hmem2
        exact foldl_preserve
          (P := fun x => lookupW x (strTrim (toLowerStr cap)) = none ∨
            lookupW x (strTrim (toLowerStr cap)) = some (mkRat 1 2))
          prefStep (fun a b ha => prefStep_halfOrNone a b _ ha)
          (keywordCaptures k text) u hq
      · have heq : kw = k := by
          rcases List.mem_cons.mp hmem with h1 | h1
          · exact h1
          · exact absurd h1 hmem2
        subst heq
        have h1 := prefFold_assigns cap hlen (keywordCaptures kw text) u hq hcap
        exact foldl_preserve
          (P := fun x => lookupW x (strTrim (toLowerStr cap)) = some (mkRat 1 2))
          (fun u kw2 => (keywordCaptures kw2 text).foldl prefStep u)
          (fun a b ha => foldl_preserve
            (P := fun x => lookupW x (strTrim (toLowerStr cap)) = some (mkRat 1 2))
            prefStep (fun a2 b2 ha2 => prefStep_preserves a2 b2 _ _ ha2)
            (keywordCaptures b text) a ha)
          t _ h1
  exact main preferredKeywords v (Or.inl hnone) hkw

/-- How the tech-vocabulary pass combines the computed weight with an existing
assignment: absent ↦ the weight, present ↦ the maximum of old and new. -/
def techCombine (w : ℚ) : Option ℚ → ℚ
  | none => w
  | some old => max old w

theorem techStep_lookup_self (text : List Char) (v : SkillVec) (sk : String)
    (hcnt : 0 < countOcc (toLowerStr sk) text) :
    lookupW (techStep text v sk) (toLowerStr sk) =
      some (techCombine
        (min 1 (mkRat 1 2 + mkRat (countOcc (toLowerStr sk) text) 10))
        (lookupW v (toLowerStr sk))) := by
  simp only [techStep]
  rw [if_pos hcnt]
  cases hold : lookupW v (toLowerStr sk) with
  | none =>
    rw [setW_lookup, if_pos rfl]
    rfl
  | some old =>
    dsimp only
    by_cases hlt : old < min 1 (mkRat 1 2 + mkRat (countOcc (toLowerStr sk) text) 10)
    · rw [if_pos hlt, setW_lookup, if_pos rfl]
      simp [techCombine, max_eq_right (le_of_lt hlt)]
    · rw [if_neg hlt, hold]
      simp [techCombine, max_eq_left (not_lt.mp hlt)]

theorem techStep_lookup_other (text : List Char) (v : SkillVec) (sk s : String)
    (hne : toLowerStr sk ≠ s) :
    lookupW (techStep text v sk) s = lookupW v s := by
  simp only [techStep]
  split
  · split
    · rw [setW_lookup, if_neg hne]
    · split
      · rw [setW_lookup, if_neg hne]
      · rfl
  · rfl

theorem assignTech_noTouch (text : List Char) (s : String) :
    ∀ (l : List String) (v : SkillVec), (∀ x ∈ l, toLowerStr x ≠ s) →
      lookupW (l.foldl (techStep text) v) s = lookupW v s := by
  intro l
  induction l with
  | nil => intro v _; rfl
  | cons x t ih =>
    intro v h
    rw [List.foldl_cons, ih _ (fun y hy => h y (List.mem_cons_of_mem _ hy)),
      techStep_lookup_other text v x s (h x (List.mem_cons_self _ _))]

theorem techCombine_idem (w : ℚ) (o : Option ℚ) :
    techCombine w (some (techCombine w o)) = techCombine w o := by
  cases o with
  | none => simp [techCombine]
  | some a => simp [techCombine, max_assoc]

theorem assignTech_fold (text : List Char) (s : String) :
    ∀ (l : List String) (v : SkillVec),
      (∀ x ∈ l, toLowerStr x = x) → s ∈ l → 0 < countOcc s text →
      lookupW (l.foldl (techStep text) v) s =
        some (techCombine (min 1 (mkRat 1 2 + mkRat (countOcc s text) 10))
          (lookupW v s)) := by
  intro l
  induction l with
  | nil => intro v _ hmem _; cases hmem
  | cons x t ih =>
    intro v hlow hmem hcnt
    rw [List.foldl_cons]
    by_cases hxs : x = s
    · subst hxs
      have hlx : toLowerStr x = x := hlow x (List.mem_cons_self _ _)
      have hself := techStep_lookup_self text v x (by rw [hlx]; exact hcnt)
      rw [hlx] at hself
      by_cases hmem2 : x ∈ t
      · rw [ih _ (fun y hy => hlow y (List.mem_cons_of_mem _ hy)) hmem2 hcnt,
          hself, techCombine_idem]
      · rw [assignTech_noTouch text x t _ ?noTouch, hself]
        case noTouch =>
          intro y hy
          rw [hlow y (List.mem_cons_of_mem _ hy)]
          intro heq
          exact hmem2 (heq ▸ hy)
    · have hnem : s ∈ t := by
        cases hmem with
        | head => exact absurd rfl hxs
        | tail _ h => exact h
      rw [ih _ (fun y hy => hlow y (List.mem_cons_of_mem _ hy)) hnem hcnt,
        techStep_lookup_other text v x s
          (by rw [hlow x (List.mem_cons_self _ _)]; exact hxs)]

/-- **C8 (amended)** — a skill captured by preferred/nice-to-have phrasing
(captures of more than 2 characters; shorter ones are filtered out) is assigned
weight 0.5 when previously unassigned and never overrides an existing
assignment; a tech-vocabulary skill occurring `count > 0` times ends with
weight `min(1.0, 0.5 + 0.1·count)` when previously unassigned, and with the
*maximum* of its previous weight and that value when already assigned (so an
existing lower weight is overridden, an existing 1.0 never is). -/
theorem jd_weight_assignment_amended :
    (∀ (v : SkillVec) (text : List Char) (kw cap : String),
      kw ∈ preferredKeywords → cap ∈ keywordCaptures kw text →
      2 < (strTrim (toLowerStr cap)).length →
      lookupW v (strTrim (toLowerStr cap)) = none →
      lookupW (assignPreferred v text) (strTrim (toLowerStr cap)) =
        some (mkRat 1 2)) ∧
    (∀ (v : SkillVec) (text : List Char) (s : String) (w : ℚ),
      lookupW v s = some w → lookupW (assignPreferred v text) s = some w) ∧
    (∀ (v : SkillVec) (text : List Char) (s : String),
      s ∈ techSkills → 0 < countOcc (toLowerStr s) text →
      lookupW (assignTech v text) (toLowerStr s) =
        some (techCombine
          (min 1 (mkRat 1 2 + mkRat (countOcc (toLowerStr s) text) 10))
          (lookupW v (toLowerStr s)))) := by
  refine ⟨?_, ?_, ?_⟩
  · intro v text kw cap hkw hcap hlen hnone
    exact assignPreferred_assigns v text kw cap hkw hcap hlen hnone
  · intro v text s w hs
    exact assignPreferred_preserves v text s w hs
  · intro v text s hmem hcnt
    have hlow : ∀ x ∈ techSkills, toLowerStr x = x := by decide
    have hseq : toLowerStr s = s := hlow s hmem
    rw [hseq] at hcnt ⊢
    exact assignTech_fold text s techSkills v hlow hmem hcnt

/-- Witness for `jd_weight_assignment_amended`: the preferred pass on
"bonus sql" assigns the previously-unassigned capture "sql" weight 0.5 and
leaves the existing aws ↦ 1.0 untouched; the tech pass on "react react react"
combines an existing react ↦ 0.5 with 0.8. -/
theorem jd_weight_assignment_amended_witness :
    lookupW (assignPreferred [("aws", 1)] "bonus sql".toList)
        (strTrim (toLowerStr "sql")) = some (mkRat 1 2) ∧
    lookupW (assignPreferred [("aws", 1)] "bonus sql".toList) "aws" = some 1 ∧
    lookupW (assignTech [("react", mkRat 1 2)] "react react react".toList)
        (toLowerStr "react") =
      some (techCombine
        (min 1 (mkRat 1 2 +
          mkRat (countOcc (toLowerStr "react") "react react react".toList) 10))
        (lookupW [("react", mkRat 1 2)] (toLowerStr "react"))) :=
  ⟨jd_weight_assignment_amended.1 [("aws", 1)] "bonus sql".toList "bonus" "sql"
      (by decide) (by decide) (by decide) (by decide),
    jd_weight_assignment_amended.2.1 [("aws", 1)] "bonus sql".toList "aws" 1
      (by rfl),
    jd_weight_assignment_amended.2.2 [("react", mkRat 1 2)]
      "react react react".toList "react" (by decide) (by decide)⟩



/-! ### Free job service (`free_job_svc.py`, `FreeJobService.search_jobs`)

The method accumulates records from ten best-effort sources plus deterministic
generators; that accumulation (network-dependent) is abstracted as the input
list.  The final stage (lines 151–162) deduplicates by `url`, keeps only
records with a non-empty `url`, stops as soon as `num_results` records are
collected, and truncates with `[:num_results]`. -/

/-- Fields of the job dicts built by every source in `free_job_svc.py`. -/
structure FJob where
  title : String
  company : String
  url : String
  location : String
  src : String
deriving DecidableEq, Repr

/-- The `for job in jobs` dedup loop: `seen` is the `seen_urls` set, `count`
the current length of `unique_jobs` (the loop breaks right after appending the
`num_results`-th record). -/
def freeDedupGo (numResults : Nat) : List String → Nat → List FJob → List FJob
  | _, _, [] => []
  | seen, count, j :: t =>
    if j.url ≠ "" ∧ j.url ∉ seen then
      if numResults ≤ count + 1 then [j]
      else j :: freeDedupGo numResults (j.url :: seen) (count + 1) t
    else freeDedupGo numResults seen count t

/-- `FreeJobService.search_jobs` final stage on the accumulated records. -/
def freeSearchJobs (accumulated : List FJob) (numResults : Nat) : List FJob :=
  (freeDedupGo numResults [] 0 accumulated).take numResults

theorem freeDedupGo_url_ne (numResults : Nat) :
    ∀ (l : List FJob) (seen : List String) (count : Nat),
      ∀ j ∈ freeDedupGo numResults seen count l, j.url ≠ "" := by
  intro l
  induction l with
  | nil => intro seen count j hj; cases hj
  | cons x t ih =>
    intro seen count j hj
    rw [freeDedupGo] at hj
    split at hj
    · rename_i hcond
      split at hj
      · rw [List.mem_singleton] at hj
        rw [hj]
        exact hcond.1
      · rcases List.mem_cons.mp hj with h | h
        · rw [h]; exact hcond.1
        · exact ih _ _ j h
    · exact ih _ _ j hj

theorem freeDedupGo_notSeen (numResults : Nat) :
    ∀ (l : List FJob) (seen : List String) (count : Nat) (u : String),
      u ∈ seen → ∀ j ∈ freeDedupGo numResults seen count l, j.url ≠ u := by
  intro l
  induction l with
  | nil => intro seen count u _ j hj; cases hj
  | cons x t ih =>
    intro seen count u hu j hj
    rw [freeDedupGo] at hj
    split at hj
    · rename_i hcond
      split at hj
      · rw [List.mem_singleton] at hj
        rw [hj]
        intro heq
        exact hcond.2 (heq ▸ hu)
      · rcases List.mem_cons.mp hj with h | h
        · rw [h]
          intro heq
          exact hcond.2 (heq ▸ hu)
        · exact ih _ _ u (List.mem_cons_of_mem _ hu) j h
    · exact ih _ _ u hu j hj

theorem freeDedupGo_pairwise (numResults : Nat) :
    ∀ (l : List FJob) (seen : List String) (count : Nat),
      (freeDedupGo numResults seen count l).Pairwise
        (fun a b => a.url ≠ b.url) := by
  intro l
  induction l with
  | nil => intro seen count; exact List.Pairwise.nil
  | cons x t ih =>
    intro seen count
    rw [freeDedupGo]
    split
    · split
      · exact List.pairwise_singleton _ _
      · refine List.Pairwise.cons ?_ (ih _ _)
        intro b hb
        exact fun heq =>
          freeDedupGo_notSeen numResults t (x.url :: seen) (count + 1)
            x.url (List.mem_cons_self _ _) b hb heq.symm
    · exact ih _ _

/-- **C10** — for every accumulated record list and every `num_results ≥ 1`,
`FreeJobService.search_jobs` returns at most `num_results` records, every
returned record has a non-empty `url`, and no two returned records share a
`url` (deduplication at this layer is by `url`). -/
theorem free_search_jobs_bounds (accumulated : List FJob) (numResults : Nat)
    (_hn : 1 ≤ numResults) :
    (freeSearchJobs accumulated numResults).length ≤ numResults ∧
    (∀ j ∈ freeSearchJobs accumulated numResults, j.url ≠ "") ∧
    (freeSearchJobs accumulated numResults).Pairwise
      (fun a b => a.url ≠ b.url) := by
  refine ⟨?_, ?_, ?_⟩
  · have := List.length_take numResults (freeDedupGo numResults [] 0 accumulated)
    unfold freeSearchJobs
    omega
  · intro j hj
    exact freeDedupGo_url_ne numResults accumulated [] 0 j
      (List.take_subset _ _ hj)
  · exact (freeDedupGo_pairwise numResults accumulated [] 0).sublist
      (List.take_sublist _ _)

/-- Witness for `free_search_jobs_bounds`: three accumulated records, two with
the same url and one with an empty url, requested cap 2. -/
theorem free_search_jobs_bounds_witness :
    ((freeSearchJobs
        [⟨"t1", "c1", "https://a", "l", "s"⟩,
         ⟨"t2", "c2", "https://a", "l", "s"⟩,
         ⟨"t3", "c3", "", "l", "s"⟩] 2).length ≤ 2 ∧
      (∀ j ∈ freeSearchJobs
        [⟨"t1", "c1", "https://a", "l", "s"⟩,
         ⟨"t2", "c2", "https://a", "l", "s"⟩,
         ⟨"t3", "c3", "", "l", "s"⟩] 2, j.url ≠ "") ∧
      (freeSearchJobs
        [⟨"t1", "c1", "https://a", "l", "s"⟩,
         ⟨"t2", "c2", "https://a", "l", "s"⟩,
         ⟨"t3", "c3", "", "l", "s"⟩] 2).Pairwise
        (fun a b => a.url ≠ b.url)) :=
  free_search_jobs_bounds _ 2 (by norm_num)

/-! ### The `/jobs/search` orchestrator (`routes/jobSearch.py`)

Each adapter call in `search_jobs` is wrapped in its own `try/except`, so the
route sees each adapter as "a list of records, possibly empty"; those lists are
the explicit inputs here.  Every adapter constructs its dicts with all of
`title`, `company`, `url`, `description`, `location`, `source` present, which
is why records are a structure of six strings.  The `debug` provenance block
and the analytics call do not affect `items` and are not modelled.  Python's
process-seeded `hash()` is the parameter `hashFn`.
-/

/-- A job dict accumulated by the route's adapters. -/
structure SJob where
  title : String
  company : String
  url : String
  description : String
  location : String
  src : String
deriving DecidableEq, Repr

/-- `JobSearchRequest` (validated: `limit` ∈ [1, 100], `minMatch` ∈ [0, 1]). -/
structure SearchRequest where
  role : String
  skills : List String
  location : String
  minMatch : ℚ
  limit : Nat
deriving DecidableEq, Repr

/-- `JobSearchItem` as built at the end of the route. -/
structure SearchItem where
  id : String
  title : String
  company : String
  location : String
  src : String
  applyUrl : String
  description : String
  matchScore : ℚ
deriving DecidableEq, Repr

/-- `request.location or "US-Remote"` (Python `or`: the empty string is falsy). -/
def locEff (r : SearchRequest) : String :=
  if r.location = "" then "US-Remote" else r.location

/-- `request.minMatch or 0.4` (note: an explicit 0.0 is falsy and becomes 0.4). -/
def minMatchEff (r : SearchRequest) : ℚ :=
  if r.minMatch = 0 then mkRat 2 5 else r.minMatch

/-- `request.limit or 20`. -/
def limitEff (r : SearchRequest) : Nat :=
  if r.limit = 0 then 20 else r.limit

/-- First alternation of `skill_patterns` in `extract_skills_from_text`. -/
def skillPattern1 : List String :=
  ["python", "java", "javascript", "typescript", "react", "vue", "angular",
   "node.js", "sql", "postgresql", "mysql", "mongodb", "redis", "docker",
   "kubernetes", "aws", "azure", "gcp", "terraform", "ansible", "jenkins",
   "git", "github", "gitlab"]

/-- Second alternation (`data\s+engineer` etc.), tokenised at the `\s+` gaps. -/
def skillPattern2 : List (List String) :=
  [["data", "engineer"], ["software", "engineer"], ["data", "analyst"],
   ["ml", "engineer"], ["ai", "engineer"], ["devops"], ["sre"], ["backend"],
   ["frontend"], ["fullstack"]]

/-- Third alternation. -/
def skillPattern3 : List String :=
  ["pandas", "numpy", "scikit-learn", "tensorflow", "pytorch", "spark",
   "hadoop", "kafka", "airflow", "mlflow"]

/-- Match a `\s+`-separated token phrase at the head of `cs`, returning the
rest of the text after the match. -/
def matchTokensAt : List String → List Char → Option (List Char)
  | [], cs => some cs
  | tk :: rest, cs =>
    if leadsWith tk.toList cs then
      let cs1 := cs.drop tk.length
      match rest with
      | [] => some cs1
      | _ :: _ =>
        if (cs1.takeWhile wsChar).isEmpty then none
        else matchTokensAt rest (cs1.dropWhile wsChar)
    else none

/-- `\b` holds after the match iff the next character is not a word character. -/
def boundaryAfterOk (rest : List Char) : Bool :=
  match rest.head? with
  | none => true
  | some c => !wordChar c

/-- `re.findall` membership for `\b(tok₁\s+tok₂…)\b`: scans every position,
tracking the previous character for the leading `\b`.  (Only membership is
needed: the route collects matches into a `set`.) -/
def phraseOccursGo (tokens : List String) : Option Char → List Char → Bool
  | _, [] => false
  | prev, c :: t =>
    ((match prev with | none => true | some p => !wordChar p) &&
      (match matchTokensAt tokens (c :: t) with
       | some rest => boundaryAfterOk rest
       | none => false)) ||
    phraseOccursGo tokens (some c) t

def phraseOccurs (tokens : List String) (text : List Char) : Bool :=
  phraseOccursGo tokens none text

/-- Maximal `\w`-runs of the text, in order (`fuel` bounds recursion). -/
def splitWordRunsGo : Nat → List Char → List String
  | 0, _ => []
  | _ + 1, [] => []
  | fuel + 1, c :: t =>
    if wordChar c then
      (⟨(c :: t).takeWhile wordChar⟩ : String) ::
        splitWordRunsGo fuel ((c :: t).dropWhile wordChar)
    else splitWordRunsGo fuel t

def isLowerAlpha (c : Char) : Bool := 'a' ≤ c && c ≤ 'z'

/-- `extract_skills_from_text`.  A `\b[a-z]{3,}\b` match is exactly a maximal
`\w`-run that is all lowercase letters and at least 3 long.  The result models
the Python `set` as a deduplicated list (every consumer is order-insensitive);
a multi-token phrase match is recorded with single spaces. -/
def extractSkillsFromText (text : String) : List String :=
  if text = "" then []
  else
    let tl := (toLowerStr text).toList
    let m1 := skillPattern1.filter (fun kw => phraseOccurs [kw] tl)
    let m2 := (skillPattern2.filter (fun ph => phraseOccurs ph tl)).map
      (String.intercalate " ")
    let m3 := skillPattern3.filter (fun kw => phraseOccurs [kw] tl)
    let words := ((splitWordRunsGo tl.length tl).filter
      (fun w => 3 ≤ w.length && w.toList.all isLowerAlpha)).take 20
    (m1 ++ m2 ++ m3 ++ words).dedup

/-- Contribution of one pair in `weighted_jaccard_similarity`'s double loop. -/
def jaccardPair (s1 s2 : String) : ℚ :=
  if s1 = s2 then 1
  else if strContains s2 s1 || strContains s1 s2 then mkRat 1 2
  else 0

/-- `weighted_jaccard_similarity`.  The Python sets are deduplicated lists; the
pairwise sum and the set sizes are order-insensitive. -/
def weightedJaccard (skills1 skills2 : List String) : ℚ :=
  if skills1.isEmpty || skills2.isEmpty then 0
  else
    let set1 := ((skills1.filter (fun s => strTrim s ≠ "")).map
      (fun s => strTrim (toLowerStr s))).dedup
    let set2 := ((skills2.filter (fun s => strTrim s ≠ "")).map
      (fun s => strTrim (toLowerStr s))).dedup
    if set1.isEmpty || set2.isEmpty then 0
    else
      let union : ℚ := ((set1.length + set2.length : Nat) : ℚ)
      let inter : ℚ := (set1.map (fun a => (set2.map (jaccardPair a)).sum)).sum
      if union = 0 then 0 else min 1 (inter / union)

/-- The five static analyst fallback records of `get_fallback_jobs`. -/
def fallbackAnalyst (location : String) : List SJob :=
  [⟨"Senior Data Analyst", "JP Morgan",
    "https://www.linkedin.com/jobs/view/12345",
    "Data analysis, SQL, Python, Tableau", location, "fallback"⟩,
   ⟨"Data Analyst", "Goldman Sachs",
    "https://www.linkedin.com/jobs/view/12346",
    "SQL, Excel, Power BI, Statistics", location, "fallback"⟩,
   ⟨"Business Data Analyst", "McKinsey",
    "https://www.linkedin.com/jobs/view/12347",
    "Data analysis, Python, R, Business intelligence", location, "fallback"⟩,
   ⟨"Data Analyst - Remote", "Salesforce",
    "https://www.linkedin.com/jobs/view/12348",
    "SQL, Python, Tableau, Data visualization", location, "fallback"⟩,
   ⟨"Data Analyst II", "Tableau",
    "https://www.linkedin.com/jobs/view/12349",
    "Data analysis, SQL, Tableau, Statistics", location, "fallback"⟩]

/-- The five static engineer fallback records. -/
def fallbackEngineer (location : String) : List SJob :=
  [⟨"Software Engineer", "Google",
    "https://www.linkedin.com/jobs/view/22345",
    "Python, Java, System design, Cloud", location, "fallback"⟩,
   ⟨"Senior Software Engineer", "Microsoft",
    "https://www.linkedin.com/jobs/view/22346",
    "C#, .NET, Azure, Full stack", location, "fallback"⟩,
   ⟨"Software Engineer - Backend", "Amazon",
    "https://www.linkedin.com/jobs/view/22347",
    "Java, AWS, Microservices, Distributed systems", location, "fallback"⟩,
   ⟨"Full Stack Engineer", "Meta",
    "https://www.linkedin.com/jobs/view/22348",
    "React, Python, GraphQL, Full stack", location, "fallback"⟩,
   ⟨"Software Engineer II", "Netflix",
    "https://www.linkedin.com/jobs/view/22349",
    "Java, Python, Distributed systems, Cloud", location, "fallback"⟩]

/-- The five generic role-interpolated fallback records. -/
def fallbackGeneric (role location : String) : List SJob :=
  [⟨role, "Tech Corp", "https://www.linkedin.com/jobs/view/32345",
    role ++ " position", location, "fallback"⟩,
   ⟨"Senior " ++ role, "Data Solutions",
    "https://www.linkedin.com/jobs/view/32346",
    "Senior " ++ role ++ " position", location, "fallback"⟩,
   ⟨role ++ " - Remote", "Cloud Services",
    "https://www.linkedin.com/jobs/view/32347",
    role ++ " remote position", location, "fallback"⟩,
   ⟨role ++ " II", "Analytics Inc", "https://www.linkedin.com/jobs/view/32348",
    role ++ " level 2 position", location, "fallback"⟩,
   ⟨role ++ " - Full Time", "Digital Innovations",
    "https://www.linkedin.com/jobs/view/32349",
    role ++ " full time position", location, "fallback"⟩]

/-- `get_fallback_jobs(role, location, limit)`. -/
def getFallbackJobs (role location : String) (limit : Nat) : List SJob :=
  let roleLower := toLowerStr role
  if strContains roleLower "data analyst" || strContains roleLower "analyst" then
    (fallbackAnalyst location).take limit
  else if strContains roleLower "software engineer" ||
      strContains roleLower "engineer" then
    (fallbackEngineer location).take limit
  else
    (fallbackGeneric role location).take limit

/-- Accumulation step of the route: concatenate the four adapters' results and
fall back to the static records when every adapter contributed nothing. -/
def allJobsOf (req : SearchRequest)
    (greenhouse lever linkedin jsearch : List SJob) : List SJob :=
  let all := greenhouse ++ lever ++ linkedin ++ jsearch
  if all.isEmpty then getFallbackJobs req.role (locEff req) (limitEff req)
  else all

/-- The scoring/filter loop: keep a job iff its weighted Jaccard score against
the request skills reaches `minMatch`. -/
def scoredJobs (req : SearchRequest) (jobs : List SJob) : List (SJob × ℚ) :=
  jobs.filterMap (fun j =>
    let jobSkills := extractSkillsFromText (j.title ++ " " ++ j.description)
    let ms := weightedJaccard req.skills jobSkills
    if minMatchEff req ≤ ms then some (j, ms) else none)

/-- Normalized `(title, company, location)` dedup key (lowercased, stripped). -/
def normKey (j : SJob) : String × String × String :=
  (strTrim (toLowerStr j.title), strTrim (toLowerStr j.company),
    strTrim (toLowerStr j.location))

/-- The dedup loop over the scored jobs, with its `seen` key set. -/
def dedupByKey : List (String × String × String) → List (SJob × ℚ) →
    List (SJob × ℚ)
  | _, [] => []
  | seen, x :: t =>
    if normKey x.1 ∈ seen then dedupByKey seen t
    else x :: dedupByKey (normKey x.1 :: seen) t

/-- `unique_jobs.sort(key=matchScore, reverse=True)` (stable). -/
def sortByScore (l : List (SJob × ℚ)) : List (SJob × ℚ) :=
  l.mergeSort (fun a b => decide (b.2 ≤ a.2))

/-- Conversion of a surviving record to a `JobSearchItem`: the id is always
hash-derived (no adapter sets an `id` key), and an empty or
`expired_jd_redirect` url is replaced by a synthetic one. -/
def toItem (hashFn : String → Nat) (x : SJob × ℚ) : SearchItem :=
  let j := x.1
  let hashId := toString (hashFn (j.title ++ j.company) % 100000)
  let applyUrl :=
    if j.url = "" || strContains j.url "expired_jd_redirect" then
      "https://www.linkedin.com/jobs/view/" ++ hashId
    else j.url
  ⟨"job-" ++ hashId, j.title, j.company, j.location, j.src, applyUrl,
    j.description, x.2⟩

/-- The `items` sequence returned by `search_jobs` (success path; the
route-level exception handler is unreachable in this model because every step
is total). -/
def searchJobsItems (req : SearchRequest)
    (greenhouse lever linkedin jsearch : List SJob)
    (hashFn : String → Nat) : List SearchItem :=
  let scored := scoredJobs req (allJobsOf req greenhouse lever linkedin jsearch)
  let unique := dedupByKey [] scored
  let sorted := sortByScore unique
  let limited := sorted.take (limitEff req)
  limited.map (toItem hashFn)

/-- Counterexample to the non-emptiness invariant: a valid request
(`limit = 20 ∈ [1, 100]`) with an empty skill list makes every weighted
Jaccard score 0, so the `minMatch` filter (default 0.4) discards even the
fallback records and the route returns an empty `items` list. -/
theorem orchestrator_empty_counterexample :
    searchJobsItems ⟨"x", [], "US-Remote", mkRat 2 5, 20⟩ [] [] [] []
      (fun _ => 0) = [] := by
  with_unfolding_all decide

theorem dedupByKey_nil_iff (l : List (SJob × ℚ)) :
    dedupByKey [] l = [] ↔ l = [] := by
  cases l with
  | nil => simp [dedupByKey]
  | cons x t =>
    rw [dedupByKey]
    simp

/-- **C1 (amended)** — the route is total (every step of the model is a total
function) and, for every valid request (`limit ≥ 1`), the `items` sequence is
non-empty exactly when at least one accumulated-or-fallback record passes the
`minMatch` filter; when the filter discards every record the result is empty. -/
theorem orchestrator_nonempty_amended (req : SearchRequest)
    (greenhouse lever linkedin jsearch : List SJob) (hashFn : String → Nat)
    (hlim : 1 ≤ req.limit) :
    searchJobsItems req greenhouse lever linkedin jsearch hashFn ≠ [] ↔
      scoredJobs req (allJobsOf req greenhouse lever linkedin jsearch) ≠ [] := by
  have hle : limitEff req = req.limit := by
    unfold limitEff
    rw [if_neg (by omega)]
  set scored := scoredJobs req (allJobsOf req greenhouse lever linkedin jsearch)
    with hscdef
  have hchain : searchJobsItems req greenhouse lever linkedin jsearch hashFn =
      ((sortByScore (dedupByKey [] scored)).take (limitEff req)).map
        (toItem hashFn) := rfl
  rw [hchain]
  constructor
  · intro hne hscored
    apply hne
    rw [hscored]
    simp [dedupByKey, sortByScore, List.mergeSort_nil]
  · intro hscored hmap
    have hd : dedupByKey [] scored ≠ [] := by
      intro h
      exact hscored ((dedupByKey_nil_iff scored).mp h)
    have hlen : (sortByScore (dedupByKey [] scored)).length =
        (dedupByKey [] scored).length :=
      (List.mergeSort_perm (dedupByKey [] scored) _).length_eq
    rw [List.map_eq_nil_iff, List.take_eq_nil_iff] at hmap
    rcases hmap with h0 | hnil
    · rw [hle] at h0
      omega
    · rw [hnil] at hlen
      exact hd (List.eq_nil_of_length_eq_zero hlen.symm)

/-- Witness for `orchestrator_nonempty_amended`: one adapter record whose
title matches the single request skill (Jaccard 1/2 ≥ 0.4). -/
theorem orchestrator_nonempty_amended_witness :
    1 ≤ (⟨"ops lead", ["python"], "US-Remote", mkRat 2 5, 20⟩ :
        SearchRequest).limit ∧
      (searchJobsItems ⟨"ops lead", ["python"], "US-Remote", mkRat 2 5, 20⟩
          [⟨"python", "acme", "https://jobs.example/1", "", "remote",
            "greenhouse"⟩] [] [] [] (fun _ => 0) ≠ [] ↔
        scoredJobs ⟨"ops lead", ["python"], "US-Remote", mkRat 2 5, 20⟩
          (allJobsOf ⟨"ops lead", ["python"], "US-Remote", mkRat 2 5, 20⟩
            [⟨"python", "acme", "https://jobs.example/1", "", "remote",
              "greenhouse"⟩] [] [] []) ≠ []) :=
  ⟨by norm_num,
    orchestrator_nonempty_amended _ _ _ _ _ _ (by norm_num)⟩

/-- Normalized dedup key of a returned item. -/
def itemKey (it : SearchItem) : String × String × String :=
  (strTrim (toLowerStr it.title), strTrim (toLowerStr it.company),
    strTrim (toLowerStr it.location))

theorem dedupByKey_notSeen :
    ∀ (l : List (SJob × ℚ)) (seen : List (String × String × String))
      (k : String × String × String), k ∈ seen →
      ∀ x ∈ dedupByKey seen l, normKey x.1 ≠ k := by
  intro l
  induction l with
  | nil => intro seen k _ x hx; cases hx
  | cons h t ih =>
    intro seen k hk x hx
    rw [dedupByKey] at hx
    split at hx
    · exact ih seen k hk x hx
    · rename_i hmem
      rcases List.mem_cons.mp hx with heq | h2
      · rw [heq]
        intro habs
        exact hmem (habs ▸ hk)
      · exact ih _ k (List.mem_cons_of_mem _ hk) x h2

theorem dedupByKey_pairwise :
    ∀ (l : List (SJob × ℚ)) (seen : List (String × String × String)),
      (dedupByKey seen l).Pairwise (fun a b => normKey a.1 ≠ normKey b.1) := by
  intro l
  induction l with
  | nil => intro seen; exact List.Pairwise.nil
  | cons h t ih =>
    intro seen
    rw [dedupByKey]
    split
    · exact ih seen
    · refine List.Pairwise.cons ?_ (ih _)
      intro b hb heq
      exact dedupByKey_notSeen t (normKey h.1 :: seen) (normKey h.1)
        (List.mem_cons_self _ _) b hb heq.symm

theorem dedupByKey_first :
    ∀ (l : List (SJob × ℚ)) (seen : List (String × String × String))
      (x : SJob × ℚ), x ∈ dedupByKey seen l →
      normKey x.1 ∉ seen ∧
      l.find? (fun y => decide (normKey y.1 = normKey x.1)) = some x := by
  intro l
  induction l with
  | nil => intro seen x hx; cases hx
  | cons h t ih =>
    intro seen x hx
    rw [dedupByKey] at hx
    split at hx
    · rename_i hmem
      obtain ⟨hnot, hfind⟩ := ih seen x hx
      refine ⟨hnot, ?_⟩
      rw [List.find?_cons_of_neg, hfind]
      simp only [decide_eq_true_eq]
      intro heq
      exact hnot (heq ▸ hmem)
    · rename_i hmem
      rcases List.mem_cons.mp hx with heq | h2
      · subst heq
        refine ⟨hmem, ?_⟩
        rw [List.find?_cons_of_pos]
        simp
      · obtain ⟨hnot, hfind⟩ := ih _ x h2
        have hne : normKey x.1 ≠ normKey h.1 := by
          intro heq
          exact hnot (heq ▸ List.mem_cons_self _ _)
        refine ⟨fun hmem2 => hnot (List.mem_cons_of_mem _ hmem2), ?_⟩
        rw [List.find?_cons_of_neg, hfind]
        simp only [decide_eq_true_eq]
        exact fun heq => hne heq.symm

/-- **C7** — no two items returned by `/jobs/search` share the same normalized
`(title, company, location)` key, and at the dedup stage the record kept for
each key is the first accumulated occurrence of that key. -/
theorem items_distinct_keys (req : SearchRequest)
    (greenhouse lever linkedin jsearch : List SJob) (hashFn : String → Nat) :
    (searchJobsItems req greenhouse lever linkedin jsearch hashFn).Pairwise
      (fun a b => itemKey a ≠ itemKey b) ∧
    (∀ x ∈ dedupByKey []
        (scoredJobs req (allJobsOf req greenhouse lever linkedin jsearch)),
      (scoredJobs req (allJobsOf req greenhouse lever linkedin jsearch)).find?
        (fun y => decide (normKey y.1 = normKey x.1)) = some x) := by
  constructor
  · set scored :=
      scoredJobs req (allJobsOf req greenhouse lever linkedin jsearch)
    have hd := dedupByKey_pairwise scored []
    have hperm : List.Perm (sortByScore (dedupByKey [] scored))
        (dedupByKey [] scored) :=
      List.mergeSort_perm (dedupByKey [] scored) _
    have hsorted := (hperm.pairwise_iff (fun h => Ne.symm h)).mpr hd
    have htake := List.Pairwise.sublist
      (List.take_sublist (limitEff req) (sortByScore (dedupByKey [] scored)))
      hsorted
    show (((sortByScore (dedupByKey [] scored)).take (limitEff req)).map
      (toItem hashFn)).Pairwise (fun a b => itemKey a ≠ itemKey b)
    rw [List.pairwise_map]
    exact htake
  · intro x hx
    exact (dedupByKey_first _ [] x hx).2

/-- Witness for `items_distinct_keys`: two adapter records with the same
normalized key, both passing the filter; the first one is the record kept. -/
theorem items_distinct_keys_witness :
    (searchJobsItems ⟨"dev", ["python"], "US-Remote", mkRat 2 5, 20⟩
        [⟨"Python", "acme", "https://a/1", "", "remote", "greenhouse"⟩,
         ⟨"python ", "Acme", "https://a/2", "", "Remote", "greenhouse"⟩]
        [] [] [] (fun _ => 0)).Pairwise
      (fun a b => itemKey a ≠ itemKey b) ∧
    (scoredJobs ⟨"dev", ["python"], "US-Remote", mkRat 2 5, 20⟩
        (allJobsOf ⟨"dev", ["python"], "US-Remote", mkRat 2 5, 20⟩
          [⟨"Python", "acme", "https://a/1", "", "remote", "greenhouse"⟩,
           ⟨"python ", "Acme", "https://a/2", "", "Remote", "greenhouse"⟩]
          [] [] [])).find?
      (fun y => decide (normKey y.1 =
        normKey ((⟨"Python", "acme", "https://a/1", "", "remote",
          "greenhouse"⟩ : SJob), mkRat 1 2).1)) =
      some (⟨"Python", "acme", "https://a/1", "", "remote", "greenhouse"⟩,
        mkRat 1 2) :=
  ⟨(items_distinct_keys ⟨"dev", ["python"], "US-Remote", mkRat 2 5, 20⟩
      [⟨"Python", "acme", "https://a/1", "", "remote", "greenhouse"⟩,
       ⟨"python ", "Acme", "https://a/2", "", "Remote", "greenhouse"⟩]
      [] [] [] (fun _ => 0)).1,
   (items_distinct_keys ⟨"dev", ["python"], "US-Remote", mkRat 2 5, 20⟩
      [⟨"Python", "acme", "https://a/1", "", "remote", "greenhouse"⟩,
       ⟨"python ", "Acme", "https://a/2", "", "Remote", "greenhouse"⟩]
      [] [] [] (fun _ => 0)).2
     (⟨"Python", "acme", "https://a/1", "", "remote", "greenhouse"⟩,
       mkRat 1 2)
     (by with_unfolding_all decide)⟩

end CareerLens
